import Mathlib

/-!
Verification of the trace-and-compile cache semantics documented for the
`jit_compilation_with_jax` notebook.  The notebook's example functions
(`log2`, `log2_if_rank_2`, `f`, `g`, `loop_body`, `g_inner_jitted`) are
translated from the source; the tracing/caching substrate they exercise
(tracers, jaxprs, the signature-keyed artifact cache) lives in the external
library and is modelled from the specification's trace-cache contract.
-/

namespace JaxJit

/-- Decidable equality of fallible results (used to evaluate the concrete
scenarios by `decide`). -/
instance exceptDecEq {ε α : Type} [DecidableEq ε] [DecidableEq α] :
    DecidableEq (Except ε α) := fun a b =>
  match a, b with
  | Except.ok x, Except.ok y =>
    if h : x = y then Decidable.isTrue (by rw [h])
    else Decidable.isFalse (by intro hc; cases hc; exact h rfl)
  | Except.error x, Except.error y =>
    if h : x = y then Decidable.isTrue (by rw [h])
    else Decidable.isFalse (by intro hc; cases hc; exact h rfl)
  | Except.ok _, Except.error _ => Decidable.isFalse (by intro hc; cases hc)
  | Except.error _, Except.ok _ => Decidable.isFalse (by intro hc; cases hc)

/-- Modelled from the spec: element dtypes carried by abstract values
(the notebook exercises f32, i32 and bool arrays). -/
inductive Dtype
  | f32
  | i32
  | b1
deriving DecidableEq, Repr

/-- Modelled from the spec: an abstract value (`ShapedArray`): shape and
dtype only, no concrete data. -/
structure Aval where
  shape : List Nat
  dtype : Dtype
deriving DecidableEq, Repr

/-- Primitive operations appearing in the notebook's traces. -/
inductive Prim
  | log
  | exp
  | add
  | mul
  | div
  | lt
  | gt
deriving DecidableEq, Repr

/-- Modelled from the spec: scalar data of concrete values.  Integer and
boolean arithmetic (what the notebook's `f` and `g` compute with) is
interpreted; floating-point primitives, out of scope for the spec's
numerics, are kept as free terms so evaluation stays deterministic. -/
inductive Scalar
  | int : Int → Scalar
  | bool : Bool → Scalar
  | sym1 : Prim → Scalar → Scalar
  | sym2 : Prim → Scalar → Scalar → Scalar
deriving DecidableEq, Repr

/-- Modelled from the spec: a concrete value: an abstract value plus
flattened data. -/
structure CVal where
  aval : Aval
  data : List Scalar
deriving DecidableEq, Repr

/-- A concrete i32 scalar (a Python int handed to an invocation). -/
def intScalar (n : Int) : CVal := ⟨⟨[], Dtype.i32⟩, [Scalar.int n]⟩

/-- A concrete f32 scalar (a Python float handed to an invocation). -/
def floatScalar (n : Int) : CVal := ⟨⟨[], Dtype.f32⟩, [Scalar.int n]⟩

def defaultCVal : CVal := ⟨⟨[], Dtype.i32⟩, [Scalar.int 0]⟩

/-- Modelled from the spec: an atom of the intermediate representation:
a variable or a literal constant. -/
inductive Atom
  | var : Nat → Atom
  | lit : CVal → Atom
deriving DecidableEq, Repr

/-- Modelled from the spec: one recorded equation of the intermediate
representation. -/
structure Eqn where
  prim : Prim
  inputs : List Atom
  outVar : Nat
  outAval : Aval
deriving DecidableEq, Repr

/-- Modelled from the spec: the captured intermediate representation
(jaxpr): input arity, recorded equations, result atom. -/
structure Jaxpr where
  arity : Nat
  eqns : List Eqn
  result : Atom
deriving DecidableEq, Repr

/-- Modelled from the spec: a value during execution: either a concrete
value or a tracer placeholder carrying only shape/dtype. -/
inductive TVal
  | concrete : CVal → TVal
  | tracer : Nat → Aval → TVal
deriving DecidableEq, Repr

/-- Modelled from the spec: trace-time failures.  `AbstractValueError` is
raised when control flow consumes a value-abstracted placeholder;
`OutOfFuel` is the embedding's bound on Python `while` loops and is never
reached on the notebook's inputs. -/
inductive TraceErr
  | AbstractValueError
  | OutOfFuel
deriving DecidableEq, Repr

/-- Modelled from the spec: mutable state during one trace: fresh-variable
counter, recorded equations, and the externally visible global list the
notebook's `log2` appends to. -/
structure TraceState where
  nextVar : Nat
  eqns : List Eqn
  globalList : List TVal
deriving DecidableEq, Repr

/-- Modelled from the spec: the trace-mode execution monad: state passing
plus fatal errors. -/
def TraceM (α : Type) : Type := TraceState → Except TraceErr (α × TraceState)

instance : Monad TraceM where
  pure a := fun s => Except.ok (a, s)
  bind m f := fun s =>
    match m s with
    | Except.ok (a, s2) => f a s2
    | Except.error e => Except.error e

def avalOfT : TVal → Aval
  | TVal.concrete v => v.aval
  | TVal.tracer _ a => a

/-- Number of dimensions, readable off a tracer (shape inspection is
permitted under the default shape-only abstraction). -/
def ndim (x : TVal) : Nat := (avalOfT x).shape.length

/-- Python truthiness of a concrete scalar. -/
def truthy (v : CVal) : Bool :=
  match v.data with
  | [Scalar.bool b] => b
  | [Scalar.int n] => n != 0
  | _ => false

/-- Modelled from the spec: extracting a branch decision from a value.
On a concrete value this is Python truthiness; on a tracer it fails
fatally with `AbstractValueError`. -/
def branchOn (x : TVal) : TraceM Bool := fun s =>
  match x with
  | TVal.concrete v => Except.ok (truthy v, s)
  | TVal.tracer _ _ => Except.error TraceErr.AbstractValueError

/-- Apply a unary primitive to concrete scalar data. -/
def applyScalar1 (p : Prim) (a : Scalar) : Scalar := Scalar.sym1 p a

/-- Apply a binary primitive to concrete scalar data. -/
def applyScalar2 (p : Prim) (a b : Scalar) : Scalar :=
  match a, b with
  | Scalar.int x, Scalar.int y =>
    match p with
    | Prim.add => Scalar.int (x + y)
    | Prim.mul => Scalar.int (x * y)
    | Prim.lt => Scalar.bool (decide (x < y))
    | Prim.gt => Scalar.bool (decide (x > y))
    | _ => Scalar.sym2 p a b
  | _, _ => Scalar.sym2 p a b

def outDtype1 (p : Prim) (a : Dtype) : Dtype :=
  match p with
  | Prim.log => Dtype.f32
  | Prim.exp => Dtype.f32
  | _ => a

def outDtype2 (p : Prim) (a b : Dtype) : Dtype :=
  match p with
  | Prim.lt => Dtype.b1
  | Prim.gt => Dtype.b1
  | Prim.div => Dtype.f32
  | Prim.log => Dtype.f32
  | Prim.exp => Dtype.f32
  | _ => if a = Dtype.f32 ∨ b = Dtype.f32 then Dtype.f32 else a

/-- Rank broadcast of two shapes: a scalar broadcasts against an array. -/
def broadcastShape (s t : List Nat) : List Nat := if s = [] then t else s

def aval1 (p : Prim) (a : Aval) : Aval := ⟨a.shape, outDtype1 p a.dtype⟩

def aval2 (p : Prim) (a b : Aval) : Aval :=
  ⟨broadcastShape a.shape b.shape, outDtype2 p a.dtype b.dtype⟩

/-- Elementwise application of a binary primitive with scalar broadcast. -/
def zipData (p : Prim) (a b : CVal) : List Scalar :=
  if a.aval.shape = [] ∧ ¬ b.aval.shape = [] then
    b.data.map (fun y => applyScalar2 p (a.data.headD (Scalar.int 0)) y)
  else if b.aval.shape = [] ∧ ¬ a.aval.shape = [] then
    a.data.map (fun x => applyScalar2 p x (b.data.headD (Scalar.int 0)))
  else
    List.zipWith (applyScalar2 p) a.data b.data

/-- Concrete (eager) evaluation of a unary primitive. -/
def evalCVal1 (p : Prim) (a : CVal) : CVal :=
  ⟨aval1 p a.aval, a.data.map (applyScalar1 p)⟩

/-- Concrete (eager) evaluation of a binary primitive. -/
def evalCVal2 (p : Prim) (a b : CVal) : CVal :=
  ⟨aval2 p a.aval b.aval, zipData p a b⟩

def atomOfT : TVal → Atom
  | TVal.concrete v => Atom.lit v
  | TVal.tracer n _ => Atom.var n

/-- Modelled from the spec: record one equation into the intermediate
representation, returning a fresh tracer for its output (pure form). -/
def emitS (p : Prim) (ins : List TVal) (out : Aval) (s : TraceState) :
    TVal × TraceState :=
  (TVal.tracer s.nextVar out,
   { s with nextVar := s.nextVar + 1,
            eqns := s.eqns ++ [⟨p, ins.map atomOfT, s.nextVar, out⟩] })

/-- Modelled from the spec: record one equation into the intermediate
representation, returning a fresh tracer for its output. -/
def emit (p : Prim) (ins : List TVal) (out : Aval) : TraceM TVal := fun s =>
  Except.ok (emitS p ins out s)

/-- Modelled from the spec: a library primitive applied through the
substrate: under an active trace it always records an equation. -/
def jnpOp1 (p : Prim) (a : TVal) : TraceM TVal :=
  emit p [a] (aval1 p (avalOfT a))

/-- Modelled from the spec: a binary library primitive under an active
trace: always records an equation. -/
def jnpOp2 (p : Prim) (a b : TVal) : TraceM TVal :=
  emit p [a, b] (aval2 p (avalOfT a) (avalOfT b))

/-- Modelled from the spec: a Python-level operator: on two concrete
values it computes eagerly (plain Python, nothing recorded); as soon as a
tracer is involved it dispatches to the substrate and records an
equation. -/
def pyOp2 (p : Prim) (a b : TVal) : TraceM TVal :=
  match a, b with
  | TVal.concrete x, TVal.concrete y => pure (TVal.concrete (evalCVal2 p x y))
  | _, _ => emit p [a, b] (aval2 p (avalOfT a) (avalOfT b))

/-- Append to the notebook's `global_list` (an externally visible side
effect of the callable). -/
def listAppend (x : TVal) : TraceM Unit := fun s =>
  Except.ok ((), { s with globalList := s.globalList ++ [x] })

/-! Notebook functions, translated from `src/jit_compilation_with_jax.ipynb`. -/

/-- From the source: `log2` appends its argument to `global_list`, then
computes `jnp.log(x) / jnp.log(2.0)`. -/
def log2 (x : TVal) : TraceM TVal := do
  listAppend x
  let ln_x ← jnpOp1 Prim.log x
  let ln_2 ← jnpOp1 Prim.log (TVal.concrete (floatScalar 2))
  jnpOp2 Prim.div ln_x ln_2

/-- From the source: `log2_if_rank_2` conditions on `x.ndim == 2` (a shape
inspection) and takes the log branch only for rank-2 inputs. -/
def log2_if_rank_2 (x : TVal) : TraceM TVal :=
  if ndim x == 2 then do
    let ln_x ← jnpOp1 Prim.log x
    let ln_2 ← jnpOp1 Prim.log (TVal.concrete (floatScalar 2))
    jnpOp2 Prim.div ln_x ln_2
  else
    pure x

/-- From the source: `f(x) = x if x > 0 else 2 * x`, branching on the value
of `x`. -/
def f (x : TVal) : TraceM TVal := do
  let b ← pyOp2 Prim.gt x (TVal.concrete (intScalar 0))
  let c ← branchOn b
  if c then
    pure x
  else
    pyOp2 Prim.mul (TVal.concrete (intScalar 2)) x

/-- From the source: the Python `while i < n: i += 1` loop inside `g`,
embedded with a fuel bound (Python loops terminate by semantics; the fuel
chosen below always suffices because `i` rises by one per iteration). -/
def gWhile (fuel : Nat) (i n : TVal) : TraceM TVal :=
  match fuel with
  | 0 => fun _ => Except.error TraceErr.OutOfFuel
  | fuel' + 1 => do
    let b ← pyOp2 Prim.lt i n
    let c ← branchOn b
    if c then
      let i2 ← pyOp2 Prim.add i (TVal.concrete (intScalar 1))
      gWhile fuel' i2 n
    else
      pure i

/-- Fuel sufficient for `g`'s loop: one test per candidate value of `i`
(0 up to `n`); on a tracer the very first test already fails. -/
def fuelFor : TVal → Nat
  | TVal.concrete v =>
    match v.data with
    | [Scalar.int k] => k.toNat + 1
    | _ => 1
  | TVal.tracer _ _ => 1

/-- From the source: `g(x, n)` initialises `i = 0`, runs
`while i < n: i += 1`, and returns `x + i`. -/
def g (x n : TVal) : TraceM TVal := do
  let i := TVal.concrete (intScalar 0)
  let i2 ← gWhile (fuelFor n) i n
  pyOp2 Prim.add x i2

/-- From the source: the jitted `loop_body(prev_i) = prev_i + 1`. -/
def loop_body (prev_i : TVal) : TraceM TVal :=
  pyOp2 Prim.add prev_i (TVal.concrete (intScalar 1))

/-! The trace-and-compile cache, modelled from the spec. -/

/-- Modelled from the spec: a wrapped callable: the callable, its arity,
and the parameter positions classified static (`static_argnums`); the
remaining positions are traced. -/
structure Wrapped where
  arity : Nat
  callable : List TVal → TraceM TVal
  static_argnums : List Nat

/-- Adapt a unary notebook function to the list-of-arguments calling
convention of the cache. -/
def asCallable1 (fn : TVal → TraceM TVal) : List TVal → TraceM TVal :=
  fun args => fn (args.getD 0 (TVal.concrete defaultCVal))

/-- Adapt a binary notebook function to the list-of-arguments calling
convention of the cache. -/
def asCallable2 (fn : TVal → TVal → TraceM TVal) : List TVal → TraceM TVal :=
  fun args =>
    fn (args.getD 0 (TVal.concrete defaultCVal)) (args.getD 1 (TVal.concrete defaultCVal))

/-- Modelled from the spec: the trace signature: shape/dtype of every
traced argument and concrete value of every static argument. -/
structure Sig where
  tracedAvals : List Aval
  staticVals : List CVal
deriving DecidableEq, Repr

/-- The traced-position arguments, in order. -/
def tracedPart (w : Wrapped) (args : List CVal) : List CVal :=
  (args.enum.filter (fun p => ¬ p.1 ∈ w.static_argnums)).map (fun p => p.2)

/-- The static-position arguments, in order. -/
def staticPart (w : Wrapped) (args : List CVal) : List CVal :=
  (args.enum.filter (fun p => p.1 ∈ w.static_argnums)).map (fun p => p.2)

/-- Modelled from the spec: the cache key of one invocation. -/
def sigOf (w : Wrapped) (args : List CVal) : Sig :=
  ⟨(tracedPart w args).map (fun v => v.aval), staticPart w args⟩

/-- Build the trace-mode argument list: tracers (numbered in order of
appearance) at traced positions, concrete values at static positions. -/
def traceArgsAux (stat : List Nat) : Nat → Nat → List CVal → List TVal
  | _, _, [] => []
  | i, next, v :: rest =>
    if i ∈ stat then
      TVal.concrete v :: traceArgsAux stat (i + 1) next rest
    else
      TVal.tracer next v.aval :: traceArgsAux stat (i + 1) (next + 1) rest

def traceArgs (w : Wrapped) (args : List CVal) : List TVal :=
  traceArgsAux w.static_argnums 0 0 args

/-! Execution of a compiled artifact (interpretation of the recorded
intermediate representation). -/

/-- An environment mapping jaxpr variables to concrete values. -/
abbrev Env : Type := List (Nat × CVal)

def envLookup (env : Env) (n : Nat) : CVal :=
  match List.find? (fun p => p.1 = n) env with
  | some p => p.2
  | none => defaultCVal

def evalAtom (env : Env) : Atom → CVal
  | Atom.var n => envLookup env n
  | Atom.lit v => v

def applyPrim (p : Prim) (ins : List CVal) : CVal :=
  match ins with
  | [a] => evalCVal1 p a
  | [a, b] => evalCVal2 p a b
  | _ => defaultCVal

def evalEqn (env : Env) (e : Eqn) : Env :=
  env ++ [(e.outVar, applyPrim e.prim (e.inputs.map (evalAtom env)))]

/-- Modelled from the spec: execute a compiled artifact against the traced
arguments of one invocation. -/
def execJaxpr (jx : Jaxpr) (args : List CVal) : CVal :=
  evalAtom (jx.eqns.foldl evalEqn args.enum) jx.result

/-! The cache itself. -/

/-- Modelled from the spec: the world an invocation runs in: the wrapper's
signature-keyed artifact cache, a trace counter (the spec's trace-count
side channel), and the notebook's global list. -/
structure World where
  cache : List (Sig × Jaxpr)
  traceCount : Nat
  globalList : List TVal
deriving DecidableEq, Repr

def emptyWorld : World := ⟨[], 0, []⟩

def lookupSig (c : List (Sig × Jaxpr)) (s : Sig) : Option Jaxpr :=
  match List.find? (fun p => p.1 = s) c with
  | some p => some p.2
  | none => none

/-- Modelled from the spec: `invoke`.  Partition the arguments, compute the
signature; on a cache hit execute the cached artifact (no re-trace, no
re-execution of the callable body); on a miss trace the callable once with
placeholders for traced arguments, compile and insert the artifact, then
execute it.  On a trace-time error the call fails and the cache is left
unchanged. -/
def invoke (w : Wrapped) (args : List CVal) (st : World) :
    Except TraceErr CVal × World :=
  match lookupSig st.cache (sigOf w args) with
  | some jx => (Except.ok (execJaxpr jx (tracedPart w args)), st)
  | none =>
    match w.callable (traceArgs w args)
        ⟨(tracedPart w args).length, [], st.globalList⟩ with
    | Except.error e => (Except.error e, st)
    | Except.ok (out, ts) =>
      (Except.ok (execJaxpr ⟨(tracedPart w args).length, ts.eqns, atomOfT out⟩
          (tracedPart w args)),
       { cache := st.cache ++
           [(sigOf w args, ⟨(tracedPart w args).length, ts.eqns, atomOfT out⟩)],
         traceCount := st.traceCount + 1,
         globalList := ts.globalList })

/-- Modelled from the spec: `jax.make_jaxpr` for a unary function: trace
with a placeholder abstracted from the concrete argument and return the
captured intermediate representation together with the global list the
trace left behind. -/
def make_jaxpr1 (fn : TVal → TraceM TVal) (arg : CVal) (gl : List TVal) :
    Except TraceErr (Jaxpr × List TVal) :=
  match fn (TVal.tracer 0 arg.aval) ⟨1, [], gl⟩ with
  | Except.error e => Except.error e
  | Except.ok (out, ts) => Except.ok (⟨1, ts.eqns, atomOfT out⟩, ts.globalList)

/-! The notebook's wrapped callables. -/

/-- From the source: `f_jit = jax.jit(f)` (every argument traced). -/
def f_jit : Wrapped := ⟨1, asCallable1 f, []⟩

/-- From the source: `g_jit = jax.jit(g)` (every argument traced). -/
def g_jit : Wrapped := ⟨2, asCallable2 g, []⟩

/-- From the source: `f_jit_correct = jax.jit(f, static_argnums=0)`. -/
def f_jit_correct : Wrapped := ⟨1, asCallable1 f, [0]⟩

/-- From the source: `g_jit_correct = jax.jit(g, static_argnums=1)`. -/
def g_jit_correct : Wrapped := ⟨2, asCallable2 g, [1]⟩

/-- From the source: the `@jax.jit`-decorated `loop_body`. -/
def loop_body_jit : Wrapped := ⟨1, asCallable1 loop_body, []⟩

def cvalInt (v : CVal) : Int :=
  match v.data with
  | [Scalar.int k] => k
  | _ => 0

/-- From the source: the Python `while i < n: i = loop_body(i)` loop of
`g_inner_jitted`, with `i` a concrete value and the loop body invoked
through the jit cache; fuel-bounded like every embedded Python loop. -/
def gInnerLoop (fuel : Nat) (i : CVal) (n : Int) (st : World) :
    Except TraceErr (CVal × World) :=
  match fuel with
  | 0 => Except.error TraceErr.OutOfFuel
  | fuel' + 1 =>
    if cvalInt i < n then
      match invoke loop_body_jit [i] st with
      | (Except.ok i2, st2) => gInnerLoop fuel' i2 n st2
      | (Except.error e, _) => Except.error e
    else
      Except.ok (i, st)

/-- From the source: `g_inner_jitted(x, n)`: unwrapped Python control flow
around the jitted `loop_body`, returning `x + i`. -/
def g_inner_jitted (x n : Int) (st : World) : Except TraceErr (CVal × World) :=
  match gInnerLoop (n.toNat + 1) (intScalar 0) n st with
  | Except.ok (i, st2) => Except.ok (evalCVal2 Prim.add (intScalar x) i, st2)
  | Except.error e => Except.error e

/-- Run a binary notebook function directly (unwrapped) on concrete
arguments: Python operators compute eagerly; a fully concrete result is
returned as-is. -/
def runConcrete2 (fn : TVal → TVal → TraceM TVal) (a b : CVal) :
    Except TraceErr TVal :=
  match fn (TVal.concrete a) (TVal.concrete b) ⟨0, [], []⟩ with
  | Except.ok (v, _) => Except.ok v
  | Except.error e => Except.error e

/-! A deep syntax for intermediate-representation-expressible callables,
used to state the refinement claim (invoking a wrapper is observationally
equivalent in result to direct execution) uniformly over all such
callables. -/

/-- Modelled from the spec: an IR-expressible callable: argument
references, literal constants, and library primitives.  (Python-level
control flow is excluded: it is exactly what the trace cannot capture.) -/
inductive Expr
  | arg : Nat → Expr
  | lit : CVal → Expr
  | un : Prim → Expr → Expr
  | bin : Prim → Expr → Expr → Expr
deriving DecidableEq, Repr

/-- Trace-mode execution of an IR-expressible callable: every primitive
records an equation through the substrate. -/
def Expr.runS : Expr → List TVal → TraceState → TVal × TraceState
  | Expr.arg i, targs, s => (targs.getD i (TVal.concrete defaultCVal), s)
  | Expr.lit v, _, s => (TVal.concrete v, s)
  | Expr.un p a, targs, s =>
    emitS p [(Expr.runS a targs s).1]
      (aval1 p (avalOfT (Expr.runS a targs s).1))
      (Expr.runS a targs s).2
  | Expr.bin p a b, targs, s =>
    emitS p [(Expr.runS a targs s).1, (Expr.runS b targs (Expr.runS a targs s).2).1]
      (aval2 p (avalOfT (Expr.runS a targs s).1)
        (avalOfT (Expr.runS b targs (Expr.runS a targs s).2).1))
      (Expr.runS b targs (Expr.runS a targs s).2).2

/-- Direct (unwrapped) execution of an IR-expressible callable on concrete
arguments: every primitive evaluates eagerly. -/
def Expr.evalC : Expr → List CVal → CVal
  | Expr.arg i, args => args.getD i defaultCVal
  | Expr.lit v, _ => v
  | Expr.un p a, args => evalCVal1 p (Expr.evalC a args)
  | Expr.bin p a b, args => evalCVal2 p (Expr.evalC a args) (Expr.evalC b args)

/-- Wrap an IR-expressible callable with every argument traced. -/
def wrapExpr (n : Nat) (e : Expr) : Wrapped :=
  ⟨n, fun targs s => Except.ok (Expr.runS e targs s), []⟩

/-- The tracer placeholders handed to an all-traced callable. -/
def tracersOf (args : List CVal) : List TVal :=
  args.enum.map (fun p => TVal.tracer p.1 p.2.aval)

/-- The environment obtained by executing recorded equations against
concrete traced arguments. -/
def envFor (args : List CVal) (es : List Eqn) : Env :=
  es.foldl evalEqn args.enum

/-- Iterating a wrapper over a list of argument lists, accumulating the
world (used to state the once-per-signature side-effect claim). -/
def invokeSeq (w : Wrapped) (argss : List (List CVal)) (st : World) : World :=
  argss.foldl (fun s a => (invoke w a s).2) st

/-- An atom whose evaluation in an environment is stable under appending
further bindings: a literal, or a variable already bound. -/
def atomOK (env : Env) : Atom → Prop
  | Atom.var n => (List.find? (fun p => p.1 = n) env).isSome = true
  | Atom.lit _ => True

/-- A wrapper around `log2` (used for the side-effect claims). -/
def log2_jit : Wrapped := ⟨1, asCallable1 log2, []⟩

/-- The rank-1 integer vector `jax.numpy.array([1, 2, 3])` from the
notebook. -/
def vec31 : CVal := ⟨⟨[3], Dtype.i32⟩, [Scalar.int 1, Scalar.int 2, Scalar.int 3]⟩

/-- The rank-2 float array `jax.numpy.array([[1.0, 2.0], [1.0, 2.0]])`
from the notebook. -/
def mat22 : CVal :=
  ⟨⟨[2, 2], Dtype.f32⟩, [Scalar.int 1, Scalar.int 2, Scalar.int 1, Scalar.int 2]⟩

/-! Supporting lemmas about environments, partitioning and the cache. -/

theorem atomOK_var {env : Env} {n : Nat} :
    atomOK env (Atom.var n) ↔ (List.find? (fun p => p.1 = n) env).isSome = true :=
  Iff.rfl

theorem atomOK_lit {env : Env} {v : CVal} : atomOK env (Atom.lit v) := trivial

theorem foldl_evalEqn_ext (es : List Eqn) :
    ∀ env : Env, ∃ extra, es.foldl evalEqn env = env ++ extra := by
  induction es with
  | nil => intro env; exact ⟨[], by simp⟩
  | cons e es ih =>
    intro env
    obtain ⟨extra, h⟩ := ih (evalEqn env e)
    refine ⟨(e.outVar, applyPrim e.prim (e.inputs.map (evalAtom env))) :: extra, ?_⟩
    rw [List.foldl_cons, h, evalEqn, List.append_assoc, List.singleton_append]

theorem foldl_evalEqn_keys (es : List Eqn) :
    ∀ env : Env,
      (es.foldl evalEqn env).map Prod.fst = env.map Prod.fst ++ es.map Eqn.outVar := by
  induction es with
  | nil => intro env; simp
  | cons e es ih =>
    intro env
    rw [List.foldl_cons, ih (evalEqn env e), evalEqn, List.map_append,
        List.append_assoc]
    simp

theorem envLookup_append_isSome {env : Env} {n : Nat}
    (h : (List.find? (fun p => p.1 = n) env).isSome = true) (extra : Env) :
    envLookup (env ++ extra) n = envLookup env n := by
  unfold envLookup
  rw [List.find?_append]
  cases hf : List.find? (fun p => p.1 = n) env with
  | none => rw [hf] at h; simp at h
  | some p => simp [Option.or]

theorem atomOK_append {env : Env} {a : Atom} (h : atomOK env a) (extra : Env) :
    atomOK (env ++ extra) a ∧ evalAtom (env ++ extra) a = evalAtom env a := by
  cases a with
  | lit v => exact ⟨trivial, rfl⟩
  | var n =>
    refine ⟨?_, envLookup_append_isSome h extra⟩
    rw [atomOK_var] at h ⊢
    rw [List.find?_append]
    cases hf : List.find? (fun p => p.1 = n) env with
    | none => rw [hf] at h; simp at h
    | some p => simp [Option.or]

theorem envLookup_append_fresh {env : Env} {n : Nat}
    (h : ∀ k ∈ env.map Prod.fst, k ≠ n) (v : CVal) :
    envLookup (env ++ [(n, v)]) n = v ∧
      (List.find? (fun p => p.1 = n) (env ++ [(n, v)])).isSome = true := by
  have hnone : List.find? (fun p => p.1 = n) env = none := by
    rw [List.find?_eq_none]
    intro x hx
    have := h x.1 (List.mem_map_of_mem Prod.fst hx)
    simp [this]
  constructor
  · unfold envLookup
    rw [List.find?_append, hnone]
    simp
  · rw [List.find?_append, hnone]
    simp

theorem find?_enumFrom_lt (dc : CVal) :
    ∀ (l : List CVal) (k i : Nat), i < l.length →
      List.find? (fun p => p.1 = k + i) (List.enumFrom k l) =
        some (k + i, l.getD i dc) := by
  intro l
  induction l with
  | nil => intro k i h; simp at h
  | cons v rest ih =>
    intro k i h
    rw [List.enumFrom_cons]
    cases i with
    | zero =>
      rw [List.find?_cons_of_pos _ (by simp)]
      simp
    | succ j =>
      have hk : ¬ ((k : Nat) = k + (j + 1)) := by omega
      have hlt : j < rest.length := by simpa using h
      have hrec := ih (k + 1) j hlt
      rw [List.find?_cons_of_neg _ (by simp [hk])]
      have harith : k + 1 + j = k + (j + 1) := by omega
      rw [harith] at hrec
      simpa using hrec

theorem find?_enum_lt (dc : CVal) {args : List CVal} {i : Nat}
    (h : i < args.length) :
    List.find? (fun p => p.1 = i) args.enum = some (i, args.getD i dc) := by
  have := find?_enumFrom_lt dc args 0 i h
  simpa using this

theorem envFor_input (args : List CVal) (es : List Eqn) {i : Nat}
    (h : i < args.length) :
    atomOK (envFor args es) (Atom.var i) ∧
      envLookup (envFor args es) i = args.getD i defaultCVal := by
  obtain ⟨extra, hext⟩ := foldl_evalEqn_ext es args.enum
  unfold envFor
  rw [hext]
  have hfind := @find?_enum_lt defaultCVal args i h
  have hOK : atomOK args.enum (Atom.var i) := by
    rw [atomOK_var, hfind]; rfl
  refine ⟨(atomOK_append hOK extra).1, ?_⟩
  rw [envLookup_append_isSome hOK extra]
  unfold envLookup
  rw [hfind]

theorem tracersOf_getD_lt {args : List CVal} {i : Nat} (h : i < args.length)
    (d : TVal) :
    (tracersOf args).getD i d = TVal.tracer i ((args.getD i defaultCVal).aval) := by
  simp [tracersOf, List.getD_eq_getElem?_getD, List.getElem?_map, List.getElem?_enum,
        List.getElem?_eq_getElem h]

theorem tracersOf_getD_ge {args : List CVal} {i : Nat} (h : args.length ≤ i)
    (d : TVal) : (tracersOf args).getD i d = d := by
  simp [tracersOf, List.getD_eq_getElem?_getD, List.getElem?_map, List.getElem?_enum,
        List.getElem?_eq_none h]

theorem tracersOf_eq_avals (args : List CVal) :
    tracersOf args =
      (args.map CVal.aval).enum.map (fun p => TVal.tracer p.1 p.2) := by
  apply List.ext_getElem
  · simp [tracersOf]
  · intro i h1 h2
    simp only [tracersOf] at h1 ⊢
    simp at h1
    simp [List.getElem_map, List.getElem_enum, h1]

theorem tracedPart_all {w : Wrapped} (hs : w.static_argnums = [])
    (args : List CVal) : tracedPart w args = args := by
  simp [tracedPart, hs]

theorem staticPart_all {w : Wrapped} (hs : w.static_argnums = [])
    (args : List CVal) : staticPart w args = [] := by
  simp [staticPart, hs]

theorem traceArgsAux_nil (args : List CVal) :
    ∀ i next, traceArgsAux [] i next args =
      (List.enumFrom next args).map (fun p => TVal.tracer p.1 p.2.aval) := by
  induction args with
  | nil => intro i next; simp [traceArgsAux]
  | cons v rest ih =>
    intro i next
    rw [List.enumFrom_cons]
    simp [traceArgsAux, ih]

theorem traceArgs_all {w : Wrapped} (hs : w.static_argnums = [])
    (args : List CVal) : traceArgs w args = tracersOf args := by
  rw [traceArgs, hs, traceArgsAux_nil]
  rfl

theorem lookupSig_append_self {c : List (Sig × Jaxpr)} {s : Sig}
    (h : lookupSig c s = none) (j : Jaxpr) :
    lookupSig (c ++ [(s, j)]) s = some j := by
  unfold lookupSig at h ⊢
  cases hf : List.find? (fun p => p.1 = s) c with
  | some p => rw [hf] at h; cases h
  | none =>
    rw [List.find?_append, hf]
    simp

theorem lookupSig_mono {c : List (Sig × Jaxpr)} {s : Sig} {j : Jaxpr}
    (h : lookupSig c s = some j) (more : List (Sig × Jaxpr)) :
    lookupSig (c ++ more) s = some j := by
  unfold lookupSig at h ⊢
  cases hf : List.find? (fun p => p.1 = s) c with
  | none => rw [hf] at h; cases h
  | some p =>
    rw [hf] at h
    rw [List.find?_append, hf]
    simpa using h

theorem invoke_hit {w : Wrapped} {args : List CVal} {st : World} {jx : Jaxpr}
    (h : lookupSig st.cache (sigOf w args) = some jx) :
    invoke w args st = (Except.ok (execJaxpr jx (tracedPart w args)), st) := by
  unfold invoke
  rw [h]

theorem invoke_err_world {w : Wrapped} {args : List CVal} {st : World}
    {e : TraceErr} {st2 : World}
    (h : invoke w args st = (Except.error e, st2)) : st2 = st := by
  unfold invoke at h
  cases hl : lookupSig st.cache (sigOf w args) with
  | some jx => rw [hl] at h; cases h
  | none =>
    rw [hl] at h
    cases hr : w.callable (traceArgs w args)
        ⟨(tracedPart w args).length, [], st.globalList⟩ with
    | error e2 => rw [hr] at h; cases h; rfl
    | ok p => rw [hr] at h; cases h

theorem invoke_miss_ok {w : Wrapped} {args : List CVal} {st : World}
    {out : TVal} {ts : TraceState}
    (hl : lookupSig st.cache (sigOf w args) = none)
    (hr : w.callable (traceArgs w args)
        ⟨(tracedPart w args).length, [], st.globalList⟩ = Except.ok (out, ts)) :
    invoke w args st =
      (Except.ok (execJaxpr ⟨(tracedPart w args).length, ts.eqns, atomOfT out⟩
          (tracedPart w args)),
       { cache := st.cache ++
           [(sigOf w args, ⟨(tracedPart w args).length, ts.eqns, atomOfT out⟩)],
         traceCount := st.traceCount + 1,
         globalList := ts.globalList }) := by
  unfold invoke
  rw [hl, hr]

theorem invoke_ok_cached {w : Wrapped} {args : List CVal} {st : World}
    {v : CVal} {st2 : World}
    (h : invoke w args st = (Except.ok v, st2)) :
    ∃ jx, lookupSig st2.cache (sigOf w args) = some jx := by
  unfold invoke at h
  cases hl : lookupSig st.cache (sigOf w args) with
  | some jx =>
    rw [hl] at h
    cases h
    exact ⟨jx, hl⟩
  | none =>
    rw [hl] at h
    cases hr : w.callable (traceArgs w args)
        ⟨(tracedPart w args).length, [], st.globalList⟩ with
    | error e2 => rw [hr] at h; cases h
    | ok p =>
      rw [hr] at h
      cases h
      exact ⟨_, lookupSig_append_self hl _⟩

/-! Soundness of tracing for IR-expressible callables: executing the
recorded equations against the concrete traced arguments reproduces direct
execution. -/

theorem envFor_keys (args : List CVal) (es : List Eqn) :
    (envFor args es).map Prod.fst =
      List.range args.length ++ es.map Eqn.outVar := by
  rw [envFor, foldl_evalEqn_keys, List.enum_map_fst]

theorem envFor_append_one (args : List CVal) (es : List Eqn) (e : Eqn) :
    envFor args (es ++ [e]) = evalEqn (envFor args es) e := by
  rw [envFor, envFor, List.foldl_append]
  rfl

theorem envFor_append (args : List CVal) (es more : List Eqn) :
    ∃ extra, envFor args (es ++ more) = envFor args es ++ extra := by
  rw [envFor, envFor, List.foldl_append]
  exact foldl_evalEqn_ext more _

theorem emitS_step (args : List CVal) (p : Prim) (ins : List TVal) (oav : Aval)
    {s1 : TraceState}
    (hlen : args.length ≤ s1.nextVar)
    (hinv : ∀ eq ∈ s1.eqns, eq.outVar < s1.nextVar) :
    s1.nextVar ≤ (emitS p ins oav s1).2.nextVar ∧
    (∀ eq ∈ (emitS p ins oav s1).2.eqns,
        eq.outVar < (emitS p ins oav s1).2.nextVar) ∧
    (∃ tail, (emitS p ins oav s1).2.eqns = s1.eqns ++ tail) ∧
    (emitS p ins oav s1).2.globalList = s1.globalList ∧
    atomOK (envFor args (emitS p ins oav s1).2.eqns)
      (atomOfT (emitS p ins oav s1).1) ∧
    evalAtom (envFor args (emitS p ins oav s1).2.eqns)
        (atomOfT (emitS p ins oav s1).1) =
      applyPrim p (ins.map (fun x => evalAtom (envFor args s1.eqns) (atomOfT x))) := by
  have hfresh : ∀ k ∈ (envFor args s1.eqns).map Prod.fst, k ≠ s1.nextVar := by
    intro k hk
    rw [envFor_keys] at hk
    rcases List.mem_append.1 hk with hk | hk
    · have : k < args.length := List.mem_range.1 hk
      omega
    · obtain ⟨eq, hmem, heq⟩ := List.mem_map.1 hk
      have := hinv eq hmem
      omega
  have henv : envFor args (s1.eqns ++ [⟨p, ins.map atomOfT, s1.nextVar, oav⟩]) =
      envFor args s1.eqns ++
        [(s1.nextVar,
          applyPrim p (ins.map (fun x => evalAtom (envFor args s1.eqns) (atomOfT x))))] := by
    rw [envFor_append_one, evalEqn]
    simp only [List.map_map]
    rfl
  obtain ⟨hl, hs⟩ := envLookup_append_fresh hfresh
    (applyPrim p (ins.map (fun x => evalAtom (envFor args s1.eqns) (atomOfT x))))
  refine ⟨Nat.le_succ _, ?_, ⟨[⟨p, ins.map atomOfT, s1.nextVar, oav⟩], rfl⟩, rfl, ?_, ?_⟩
  · intro eq hmem
    rcases List.mem_append.1 hmem with hmem | hmem
    · have := hinv eq hmem
      simp only [emitS]
      omega
    · simp only [List.mem_singleton] at hmem
      subst hmem
      simp [emitS]
  · show atomOK _ (Atom.var s1.nextVar)
    rw [atomOK_var]
    simp only [emitS]
    rw [henv]
    exact hs
  · show evalAtom _ (Atom.var s1.nextVar) = _
    simp only [emitS]
    rw [show evalAtom (envFor args (s1.eqns ++ [⟨p, ins.map atomOfT, s1.nextVar, oav⟩]))
          (Atom.var s1.nextVar) =
        envLookup (envFor args (s1.eqns ++ [⟨p, ins.map atomOfT, s1.nextVar, oav⟩]))
          s1.nextVar from rfl]
    rw [henv]
    exact hl

theorem runS_sound (args : List CVal) (e : Expr) :
    ∀ s : TraceState,
    args.length ≤ s.nextVar →
    (∀ eq ∈ s.eqns, eq.outVar < s.nextVar) →
    s.nextVar ≤ (Expr.runS e (tracersOf args) s).2.nextVar ∧
    (∀ eq ∈ (Expr.runS e (tracersOf args) s).2.eqns,
        eq.outVar < (Expr.runS e (tracersOf args) s).2.nextVar) ∧
    (∃ tail, (Expr.runS e (tracersOf args) s).2.eqns = s.eqns ++ tail) ∧
    (Expr.runS e (tracersOf args) s).2.globalList = s.globalList ∧
    atomOK (envFor args (Expr.runS e (tracersOf args) s).2.eqns)
      (atomOfT (Expr.runS e (tracersOf args) s).1) ∧
    evalAtom (envFor args (Expr.runS e (tracersOf args) s).2.eqns)
      (atomOfT (Expr.runS e (tracersOf args) s).1) = Expr.evalC e args := by
  induction e with
  | arg i =>
    intro s hlen hinv
    simp only [Expr.runS]
    by_cases hi : i < args.length
    · rw [tracersOf_getD_lt hi]
      obtain ⟨hOK, hval⟩ := envFor_input args s.eqns hi
      exact ⟨Nat.le_refl _, hinv, ⟨[], by simp⟩, by trivial, hOK, hval⟩
    · rw [tracersOf_getD_ge (Nat.le_of_not_lt hi)]
      refine ⟨Nat.le_refl _, hinv, ⟨[], by simp⟩, by trivial, atomOK_lit, ?_⟩
      show defaultCVal = args.getD i defaultCVal
      rw [List.getD_eq_getElem?_getD, List.getElem?_eq_none (Nat.le_of_not_lt hi)]
      rfl
  | lit v =>
    intro s hlen hinv
    simp only [Expr.runS]
    exact ⟨Nat.le_refl _, hinv, ⟨[], by simp⟩, by trivial, atomOK_lit, by trivial⟩
  | un p a ih =>
    intro s hlen hinv
    obtain ⟨m1, inv1, ⟨tail1, heq1⟩, hgl1, hOK1, hval1⟩ := ih s hlen hinv
    obtain ⟨m2, inv2, ⟨tail2, heq2⟩, hgl2, hOK2, hval2⟩ :=
      emitS_step args p [(Expr.runS a (tracersOf args) s).1]
        (aval1 p (avalOfT (Expr.runS a (tracersOf args) s).1))
        (Nat.le_trans hlen m1) inv1
    simp only [Expr.runS]
    refine ⟨Nat.le_trans m1 m2, inv2, ?_, ?_, hOK2, ?_⟩
    · exact ⟨tail1 ++ tail2, by rw [heq2, heq1, List.append_assoc]⟩
    · rw [hgl2, hgl1]
    · have hv := hval2
      simp only [List.map_cons, List.map_nil] at hv
      rw [hval1] at hv
      rw [hv]
      rfl
  | bin p a b iha ihb =>
    intro s hlen hinv
    obtain ⟨m1, inv1, ⟨tail1, heq1⟩, hgl1, hOK1, hval1⟩ := iha s hlen hinv
    obtain ⟨m2, inv2, ⟨tail2, heq2⟩, hgl2, hOK2, hval2⟩ :=
      ihb (Expr.runS a (tracersOf args) s).2 (Nat.le_trans hlen m1) inv1
    obtain ⟨extra, hext⟩ := envFor_append args
      (Expr.runS a (tracersOf args) s).2.eqns tail2
    have hstab := atomOK_append hOK1 extra
    have hval1q : evalAtom
        (envFor args (Expr.runS b (tracersOf args)
            (Expr.runS a (tracersOf args) s).2).2.eqns)
        (atomOfT (Expr.runS a (tracersOf args) s).1) = Expr.evalC a args := by
      rw [heq2, hext, hstab.2, hval1]
    obtain ⟨m3, inv3, ⟨tail3, heq3⟩, hgl3, hOK3, hval3⟩ :=
      emitS_step args p
        [(Expr.runS a (tracersOf args) s).1,
         (Expr.runS b (tracersOf args) (Expr.runS a (tracersOf args) s).2).1]
        (aval2 p (avalOfT (Expr.runS a (tracersOf args) s).1)
          (avalOfT (Expr.runS b (tracersOf args)
            (Expr.runS a (tracersOf args) s).2).1))
        (Nat.le_trans hlen (Nat.le_trans m1 m2)) inv2
    simp only [Expr.runS]
    refine ⟨Nat.le_trans m1 (Nat.le_trans m2 m3), inv3, ?_, ?_, hOK3, ?_⟩
    · refine ⟨tail1 ++ tail2 ++ tail3, ?_⟩
      rw [heq3, heq2, heq1, List.append_assoc, List.append_assoc, List.append_assoc]
    · rw [hgl3, hgl2, hgl1]
    · have hv := hval3
      simp only [List.map_cons, List.map_nil] at hv
      rw [hval1q, hval2] at hv
      rw [hv]
      rfl

theorem execJaxpr_envFor (arity : Nat) (es : List Eqn) (res : Atom)
    (args : List CVal) :
    execJaxpr ⟨arity, es, res⟩ args = evalAtom (envFor args es) res := rfl

theorem expr_invoke_sound (n : Nat) (e : Expr) (args : List CVal) (st : World)
    (h : lookupSig st.cache (sigOf (wrapExpr n e) args) = none) :
    (invoke (wrapExpr n e) args st).1 = Except.ok (Expr.evalC e args) ∧
    ∀ args2 : List CVal,
      sigOf (wrapExpr n e) args2 = sigOf (wrapExpr n e) args →
      (invoke (wrapExpr n e) args2 (invoke (wrapExpr n e) args st).2).1 =
        Except.ok (Expr.evalC e args2) := by
  have hs : (wrapExpr n e).static_argnums = [] := rfl
  have htp := tracedPart_all hs args
  have hta := traceArgs_all hs args
  have hr : (wrapExpr n e).callable (traceArgs (wrapExpr n e) args)
      ⟨(tracedPart (wrapExpr n e) args).length, [], st.globalList⟩ =
      Except.ok
        ((Expr.runS e (tracersOf args) ⟨args.length, [], st.globalList⟩).1,
         (Expr.runS e (tracersOf args) ⟨args.length, [], st.globalList⟩).2) := by
    rw [hta, htp]
    rfl
  have hsound := runS_sound args e ⟨args.length, [], st.globalList⟩
    (Nat.le_refl _) (by intro eq hmem; cases hmem)
  obtain ⟨-, -, -, -, -, hval⟩ := hsound
  have hmiss := invoke_miss_ok h hr
  constructor
  · rw [hmiss]
    show Except.ok (execJaxpr ⟨(tracedPart (wrapExpr n e) args).length, _, _⟩ _) = _
    rw [htp, execJaxpr_envFor, hval]
  · intro args2 hsig2
    have htp2 := tracedPart_all hs args2
    have havals : args2.map CVal.aval = args.map CVal.aval := by
      have := congrArg Sig.tracedAvals hsig2
      simp only [sigOf, htp, htp2] at this
      exact this
    have hlen2 : args2.length = args.length := by
      have := congrArg List.length havals
      simpa using this
    have htr2 : tracersOf args2 = tracersOf args := by
      rw [tracersOf_eq_avals, tracersOf_eq_avals, havals]
    have hsound2 := runS_sound args2 e ⟨args.length, [], st.globalList⟩
      (by show args2.length ≤ args.length; omega) (by intro eq hmem; cases hmem)
    rw [htr2] at hsound2
    obtain ⟨-, -, -, -, -, hval2⟩ := hsound2
    have hcache2 : lookupSig (invoke (wrapExpr n e) args st).2.cache
        (sigOf (wrapExpr n e) args2) =
        some ⟨(tracedPart (wrapExpr n e) args).length,
          (Expr.runS e (tracersOf args) ⟨args.length, [], st.globalList⟩).2.eqns,
          atomOfT (Expr.runS e (tracersOf args) ⟨args.length, [], st.globalList⟩).1⟩ := by
      rw [hmiss, hsig2]
      exact lookupSig_append_self h _
    rw [invoke_hit hcache2]
    show Except.ok (execJaxpr _ (tracedPart (wrapExpr n e) args2)) = _
    rw [htp2, execJaxpr_envFor, hval2]

theorem invoke_new_sig_traces {w : Wrapped} {args : List CVal} {st : World}
    {v : CVal} {st2 : World}
    (h1 : lookupSig st.cache (sigOf w args) = none)
    (h2 : invoke w args st = (Except.ok v, st2)) :
    st2.traceCount = st.traceCount + 1 := by
  unfold invoke at h2
  rw [h1] at h2
  cases hr : w.callable (traceArgs w args)
      ⟨(tracedPart w args).length, [], st.globalList⟩ with
  | error e => rw [hr] at h2; cases h2
  | ok p => rw [hr] at h2; cases h2; rfl

theorem invoke_same_sig_cached {w : Wrapped} {a1 a2 : List CVal} {st : World}
    {v : CVal} {st1 : World}
    (h : invoke w a1 st = (Except.ok v, st1))
    (hsig : sigOf w a2 = sigOf w a1) :
    (invoke w a2 st1).2 = st1 := by
  obtain ⟨jx, hl⟩ := invoke_ok_cached h
  have hl2 : lookupSig st1.cache (sigOf w a2) = some jx := by rw [hsig]; exact hl
  rw [invoke_hit hl2]

theorem invokeSeq_hit (w : Wrapped) (argss : List (List CVal)) :
    ∀ st1 : World,
    (∀ a ∈ argss, ∃ jx, lookupSig st1.cache (sigOf w a) = some jx) →
    invokeSeq w argss st1 = st1 := by
  induction argss with
  | nil => intro st1 _; rfl
  | cons a rest ih =>
    intro st1 hmem
    obtain ⟨jx, hl⟩ := hmem a (List.mem_cons_self a rest)
    have hstep : (invoke w a st1).2 = st1 := by rw [invoke_hit hl]
    show invokeSeq w rest (invoke w a st1).2 = st1
    rw [hstep]
    exact ih st1 (fun b hb => hmem b (List.mem_cons_of_mem a hb))

/-! The claims. -/

/-- C1: branching on the value of a traced placeholder fails at trace time
with `AbstractValueError`; in particular wrapping `f` with `x` traced and
invoking with `x = 10`, or wrapping `g` with both arguments traced and
invoking with `(10, 20)`, raises `AbstractValueError`. -/
theorem claim_C1 :
    (∀ (v : Nat) (a : Aval) (s : TraceState),
        branchOn (TVal.tracer v a) s = Except.error TraceErr.AbstractValueError) ∧
    (invoke f_jit [intScalar 10] emptyWorld).1 =
      Except.error TraceErr.AbstractValueError ∧
    (invoke g_jit [intScalar 10, intScalar 20] emptyWorld).1 =
      Except.error TraceErr.AbstractValueError :=
  ⟨fun _ _ _ => rfl, by decide, by decide⟩

/-- C2: with `x` static, `f` returns 10 on 10; invoking with -5 returns
-10 and triggers a new trace (trace count rises to 2); invoking again with
10 returns 10 without a new trace (trace count stays 2). -/
theorem claim_C2 :
    (invoke f_jit_correct [intScalar 10] emptyWorld).1 =
      Except.ok (intScalar 10) ∧
    (invoke f_jit_correct [intScalar 10] emptyWorld).2.traceCount = 1 ∧
    (invoke f_jit_correct [intScalar (-5)]
        (invoke f_jit_correct [intScalar 10] emptyWorld).2).1 =
      Except.ok (intScalar (-10)) ∧
    (invoke f_jit_correct [intScalar (-5)]
        (invoke f_jit_correct [intScalar 10] emptyWorld).2).2.traceCount = 2 ∧
    (invoke f_jit_correct [intScalar 10]
        (invoke f_jit_correct [intScalar (-5)]
          (invoke f_jit_correct [intScalar 10] emptyWorld).2).2).1 =
      Except.ok (intScalar 10) ∧
    (invoke f_jit_correct [intScalar 10]
        (invoke f_jit_correct [intScalar (-5)]
          (invoke f_jit_correct [intScalar 10] emptyWorld).2).2).2.traceCount = 2 := by
  decide

/-- C3: with `n` static, invoking the wrapped `g` with `(10, 20)` returns
30. -/
theorem claim_C3 :
    (invoke g_jit_correct [intScalar 10, intScalar 20] emptyWorld).1 =
      Except.ok (intScalar 30) := by
  decide

/-- C4: on a cache hit (equal signature) the cached artifact is reused and
executed against the traced arguments, and the world — trace counter,
cache, and externally visible state — is untouched: no new trace, no
re-execution of the callable body. -/
theorem claim_C4 (w : Wrapped) (args : List CVal) (st : World) (jx : Jaxpr)
    (h : lookupSig st.cache (sigOf w args) = some jx) :
    invoke w args st = (Except.ok (execJaxpr jx (tracedPart w args)), st) :=
  invoke_hit h

/-- Witness for C4: the second invocation of the jitted `loop_body` hits
the cache and leaves the world unchanged. -/
theorem claim_C4_witness :
    lookupSig (invoke loop_body_jit [intScalar 0] emptyWorld).2.cache
        (sigOf loop_body_jit [intScalar 5]) =
      some ⟨1, [⟨Prim.add, [Atom.var 0, Atom.lit (intScalar 1)], 1,
        ⟨[], Dtype.i32⟩⟩], Atom.var 1⟩ ∧
    invoke loop_body_jit [intScalar 5]
        (invoke loop_body_jit [intScalar 0] emptyWorld).2 =
      (Except.ok (execJaxpr ⟨1, [⟨Prim.add, [Atom.var 0, Atom.lit (intScalar 1)],
          1, ⟨[], Dtype.i32⟩⟩], Atom.var 1⟩
          (tracedPart loop_body_jit [intScalar 5])),
       (invoke loop_body_jit [intScalar 0] emptyWorld).2) :=
  ⟨by decide, claim_C4 _ _ _ _ (by decide)⟩

/-- C5: a change in any static argument's value or in any traced
argument's shape/dtype produces a new signature, and an unseen signature
forces a new trace-and-compile cycle (trace count increments); a change
only in a traced argument's concrete value keeps the signature, and the
second invocation leaves the world unchanged (no recompilation). -/
theorem claim_C5 :
    (∀ (w : Wrapped) (a1 a2 : List CVal),
        staticPart w a1 ≠ staticPart w a2 → sigOf w a1 ≠ sigOf w a2) ∧
    (∀ (w : Wrapped) (a1 a2 : List CVal),
        (tracedPart w a1).map CVal.aval ≠ (tracedPart w a2).map CVal.aval →
        sigOf w a1 ≠ sigOf w a2) ∧
    (∀ (w : Wrapped) (args : List CVal) (st : World) (v : CVal) (st2 : World),
        lookupSig st.cache (sigOf w args) = none →
        invoke w args st = (Except.ok v, st2) →
        st2.traceCount = st.traceCount + 1) ∧
    (∀ (w : Wrapped) (a1 a2 : List CVal) (st : World) (v : CVal) (st1 : World),
        invoke w a1 st = (Except.ok v, st1) →
        sigOf w a2 = sigOf w a1 →
        (invoke w a2 st1).2 = st1) :=
  ⟨fun _ _ _ hne heq => hne (congrArg Sig.staticVals heq),
   fun _ _ _ hne heq => hne (congrArg Sig.tracedAvals heq),
   fun _ _ _ _ _ h1 h2 => invoke_new_sig_traces h1 h2,
   fun _ _ _ _ _ _ h hsig => invoke_same_sig_cached h hsig⟩

/-- Witness for C5: a changed static value (10 vs -5) changes the
signature of `f_jit_correct`; a changed traced shape changes the signature
of the jitted `loop_body`; the first call on a fresh cache traces
(trace count 0 → 1); calling again with a different traced value of equal
shape/dtype leaves the world unchanged. -/
theorem claim_C5_witness :
    sigOf f_jit_correct [intScalar 10] ≠ sigOf f_jit_correct [intScalar (-5)] ∧
    sigOf loop_body_jit [intScalar 0] ≠ sigOf loop_body_jit [vec31] ∧
    (invoke f_jit_correct [intScalar 10] emptyWorld).2.traceCount =
      emptyWorld.traceCount + 1 ∧
    (invoke loop_body_jit [intScalar 5]
        (invoke loop_body_jit [intScalar 0] emptyWorld).2).2 =
      (invoke loop_body_jit [intScalar 0] emptyWorld).2 :=
  ⟨claim_C5.1 f_jit_correct [intScalar 10] [intScalar (-5)] (by decide),
   claim_C5.2.1 loop_body_jit [intScalar 0] [vec31] (by decide),
   claim_C5.2.2.1 f_jit_correct [intScalar 10] emptyWorld (intScalar 10)
     (invoke f_jit_correct [intScalar 10] emptyWorld).2 (by decide) (by decide),
   claim_C5.2.2.2 loop_body_jit [intScalar 0] [intScalar 5] emptyWorld
     (intScalar 1) (invoke loop_body_jit [intScalar 0] emptyWorld).2
     (by decide) (by decide)⟩

/-- C6: under the default shape-only abstraction a callable may condition
on a traced argument's shape: tracing `log2_if_rank_2` with a rank-1
integer vector succeeds and yields an identity program with no
operations, while tracing it with a rank-2 float array yields the
log/log/divide computation. -/
theorem claim_C6 :
    make_jaxpr1 log2_if_rank_2 vec31 [] =
      Except.ok (⟨1, [], Atom.var 0⟩, []) ∧
    make_jaxpr1 log2_if_rank_2 mat22 [] =
      Except.ok (⟨1,
        [⟨Prim.log, [Atom.var 0], 1, ⟨[2, 2], Dtype.f32⟩⟩,
         ⟨Prim.log, [Atom.lit (floatScalar 2)], 2, ⟨[], Dtype.f32⟩⟩,
         ⟨Prim.div, [Atom.var 1, Atom.var 2], 3, ⟨[2, 2], Dtype.f32⟩⟩],
        Atom.var 3⟩, []) := by
  exact ⟨by decide, by decide⟩

/-- C7: after a first successful invocation, any number of further
invocations with the same signature leave the world — in particular the
externally visible global list — unchanged (cache hits never replay side
effects); and when the first invocation was a miss, the global list after
it is exactly what the trace produced (the side effect happened at trace
time). -/
theorem claim_C7 (w : Wrapped) (args : List CVal) (st : World) (v : CVal)
    (st1 : World) (argss : List (List CVal))
    (h : invoke w args st = (Except.ok v, st1))
    (hsig : ∀ a ∈ argss, sigOf w a = sigOf w args) :
    invokeSeq w argss st1 = st1 ∧
    (lookupSig st.cache (sigOf w args) = none →
      ∀ (out : TVal) (ts : TraceState),
        w.callable (traceArgs w args)
            ⟨(tracedPart w args).length, [], st.globalList⟩ =
          Except.ok (out, ts) →
        st1.globalList = ts.globalList) := by
  constructor
  · obtain ⟨jx, hl⟩ := invoke_ok_cached h
    exact invokeSeq_hit w argss st1
      (fun a ha => ⟨jx, by rw [hsig a ha]; exact hl⟩)
  · intro hmiss out ts hr
    rw [invoke_miss_ok hmiss hr] at h
    cases h
    rfl

/-- Witness for C7: invoking the wrapped `log2` on 3.0 appends one tracer
to the global list; two further invocations with same-shaped arguments
leave the world (and the global list) unchanged. -/
theorem claim_C7_witness :
    invokeSeq log2_jit [[floatScalar 4], [floatScalar 5]]
        (invoke log2_jit [floatScalar 3] emptyWorld).2 =
      (invoke log2_jit [floatScalar 3] emptyWorld).2 ∧
    (lookupSig emptyWorld.cache (sigOf log2_jit [floatScalar 3]) = none →
      ∀ (out : TVal) (ts : TraceState),
        log2_jit.callable (traceArgs log2_jit [floatScalar 3])
            ⟨(tracedPart log2_jit [floatScalar 3]).length, [],
              emptyWorld.globalList⟩ =
          Except.ok (out, ts) →
        (invoke log2_jit [floatScalar 3] emptyWorld).2.globalList =
          ts.globalList) :=
  claim_C7 log2_jit [floatScalar 3] emptyWorld
    ⟨⟨[], Dtype.f32⟩, [Scalar.sym2 Prim.div (Scalar.sym1 Prim.log (Scalar.int 3))
      (Scalar.sym1 Prim.log (Scalar.int 2))]⟩
    (invoke log2_jit [floatScalar 3] emptyWorld).2
    [[floatScalar 4], [floatScalar 5]] (by decide) (by decide)

/-- C8: an invocation failing with `AbstractValueError` at trace time is
fatal and atomic: the error is surfaced, the returned world equals the
initial one, and in particular the cache is unchanged for the failing
signature — no partial artifact is cached, and there is no retry path. -/
theorem claim_C8 (w : Wrapped) (args : List CVal) (st st2 : World)
    (h : invoke w args st = (Except.error TraceErr.AbstractValueError, st2)) :
    st2 = st ∧
    lookupSig st2.cache (sigOf w args) = lookupSig st.cache (sigOf w args) := by
  have he := invoke_err_world h
  exact ⟨he, by rw [he]⟩

/-- Witness for C8: the failing invocation of `f_jit` on 10 leaves the
empty world unchanged. -/
theorem claim_C8_witness :
    emptyWorld = emptyWorld ∧
    lookupSig emptyWorld.cache (sigOf f_jit [intScalar 10]) =
      lookupSig emptyWorld.cache (sigOf f_jit [intScalar 10]) :=
  claim_C8 f_jit [intScalar 10] emptyWorld emptyWorld (by decide)

/-- C9: for IR-expressible callables, a successful invocation returns
exactly what direct unwrapped execution returns, both on the tracing call
and on subsequent cache-hit calls with the same signature; in particular
`g_jit_correct(10, 20)`, the direct `g(10, 20)` and `g_inner_jitted(10,
20)` (a jitted loop body driven by unwrapped control flow) all yield
30. -/
theorem claim_C9 :
    (∀ (n : Nat) (e : Expr) (args : List CVal) (st : World),
        lookupSig st.cache (sigOf (wrapExpr n e) args) = none →
        (invoke (wrapExpr n e) args st).1 = Except.ok (Expr.evalC e args) ∧
        ∀ args2 : List CVal,
          sigOf (wrapExpr n e) args2 = sigOf (wrapExpr n e) args →
          (invoke (wrapExpr n e) args2 (invoke (wrapExpr n e) args st).2).1 =
            Except.ok (Expr.evalC e args2)) ∧
    (invoke g_jit_correct [intScalar 10, intScalar 20] emptyWorld).1 =
      Except.ok (intScalar 30) ∧
    runConcrete2 g (intScalar 10) (intScalar 20) =
      Except.ok (TVal.concrete (intScalar 30)) ∧
    g_inner_jitted 10 20 emptyWorld =
      Except.ok (intScalar 30,
        ⟨[(⟨[⟨[], Dtype.i32⟩], []⟩,
           ⟨1, [⟨Prim.add, [Atom.var 0, Atom.lit (intScalar 1)], 1,
             ⟨[], Dtype.i32⟩⟩], Atom.var 1⟩)], 1, []⟩) :=
  ⟨expr_invoke_sound, by decide, by decide, by decide⟩

/-- Witness for C9: the IR-expressible callable `x ↦ x + 1`, wrapped with
its argument traced, returns direct-execution results on the tracing call
with 5 and on the cache-hit call with 7. -/
theorem claim_C9_witness :
    (invoke (wrapExpr 1 (Expr.bin Prim.add (Expr.arg 0) (Expr.lit (intScalar 1))))
        [intScalar 5] emptyWorld).1 =
      Except.ok (Expr.evalC
        (Expr.bin Prim.add (Expr.arg 0) (Expr.lit (intScalar 1))) [intScalar 5]) ∧
    (invoke (wrapExpr 1 (Expr.bin Prim.add (Expr.arg 0) (Expr.lit (intScalar 1))))
        [intScalar 7]
        (invoke (wrapExpr 1 (Expr.bin Prim.add (Expr.arg 0)
            (Expr.lit (intScalar 1)))) [intScalar 5] emptyWorld).2).1 =
      Except.ok (Expr.evalC
        (Expr.bin Prim.add (Expr.arg 0) (Expr.lit (intScalar 1))) [intScalar 7]) :=
  have h := claim_C9.1 1
    (Expr.bin Prim.add (Expr.arg 0) (Expr.lit (intScalar 1)))
    [intScalar 5] emptyWorld (by decide)
  ⟨h.1, h.2 [intScalar 7] (by decide)⟩

/-- C10: tracing `log2` on the concrete argument 3.0 leaves a traced
shape/dtype placeholder — not the value 3.0 — in the global list, and the
recorded intermediate representation consists solely of the two log
operations and the divide, with no trace of the append. -/
theorem claim_C10 :
    make_jaxpr1 log2 (floatScalar 3) [] =
      Except.ok (⟨1,
        [⟨Prim.log, [Atom.var 0], 1, ⟨[], Dtype.f32⟩⟩,
         ⟨Prim.log, [Atom.lit (floatScalar 2)], 2, ⟨[], Dtype.f32⟩⟩,
         ⟨Prim.div, [Atom.var 1, Atom.var 2], 3, ⟨[], Dtype.f32⟩⟩],
        Atom.var 3⟩,
        [TVal.tracer 0 ⟨[], Dtype.f32⟩]) ∧
    [TVal.tracer 0 ⟨[], Dtype.f32⟩] ≠ [TVal.concrete (floatScalar 3)] := by
  exact ⟨by decide, by decide⟩

end JaxJit
